import Mathlib

/-!
Shallow embedding of `hack/tools/cmd/konflux/visualize.py`, a batch script
that loads a JSON array of commit records, aggregates them into weekly
built/published count buckets (pandas `resample('W').sum()`), groups
publish latencies by `roundedTime` of the commit date, and renders three
plots.

Modelling conventions:
- Timestamps are `Int` seconds since the Unix epoch 1970-01-01T00:00:00Z;
  the source records carry whole-second ISO-8601 timestamps, and
  `datetime.astimezone(timezone.utc)` does not change the instant, so
  integer epoch seconds represent the normalized UTC datetimes exactly.
- Python `//` and `%` on integers are floor division and floor modulus;
  for the positive divisors used here they agree with Lean's `Int` `/`
  and `%` (Euclidean), which is what the definitions below use.
- Calendar conversions (`datetime.day`, building a datetime from a civil
  date) use the standard civil-from-days / days-from-civil algorithms.
- pandas and matplotlib behavior that the script relies on is embedded at
  the level the script observes it: `resample('W').sum()` bins rows by the
  calendar week ending on Sunday labelled with that Sunday, covering the
  full span from the week of the index minimum to the week of the index
  maximum with zero-filled gaps; `groupby` iterates groups in ascending
  key order; `sort_values` sorts ascending; float division of int series
  yields NaN for 0/0; `index[0]` on an empty index is an out-of-bounds
  access.
-/

/-- JSON values as produced by `json.load` for this input format.  Numbers
are integers (the only numeric fields in the format are 0/1 `published`
flags). -/
inductive Json where
  | null : Json
  | bool (b : Bool) : Json
  | num (n : Int) : Json
  | str (s : String) : Json
  | arr (xs : List Json) : Json
  | obj (fields : List (String × Json)) : Json

/-- Field lookup on a JSON object, `i['date']` etc.; `none` models a
`KeyError` (or a `TypeError` when the value is not an object). -/
def Json.getField : Json → String → Option Json
  | .obj fields, key => fields.lookup key
  | _, _ => none

/-- Python truthiness of a JSON value, as used by `if i['published']`. -/
def Json.truthy : Json → Bool
  | .null => false
  | .bool b => b
  | .num n => n != 0
  | .str s => !s.isEmpty
  | .arr xs => !xs.isEmpty
  | .obj fields => !fields.isEmpty

/-- Python `int(...)` applied to a JSON value: booleans map to 0/1,
numbers to themselves; anything else raises (`none`). -/
def Json.toIntPy : Json → Option Int
  | .bool b => some (if b then 1 else 0)
  | .num n => some n
  | _ => none

/-! ### Calendar arithmetic

Days-from-civil and civil-from-days (Howard Hinnant's algorithms),
modelling the Gregorian calendar arithmetic that `datetime` performs.
`Int` division by the positive constants below is floor division, so the
sign pre-adjustments of the C versions are unnecessary. -/

/-- Day number (days since 1970-01-01) of the civil date `(y, m, d)`. -/
def daysFromCivil (y m d : Int) : Int :=
  let yy := if m ≤ 2 then y - 1 else y
  let era := yy / 400
  let yoe := yy - era * 400
  let mp := (m + 9) % 12
  let doy := (153 * mp + 2) / 5 + d - 1
  let doe := yoe * 365 + yoe / 4 - yoe / 100 + doy
  era * 146097 + doe - 719468

/-- Civil date `(y, m, d)` of a day number (days since 1970-01-01). -/
def civilFromDays (z : Int) : Int × Int × Int :=
  let z' := z + 719468
  let era := z' / 146097
  let doe := z' - era * 146097
  let yoe := (doe - doe / 1460 + doe / 36524 - doe / 146096) / 365
  let y := yoe + era * 400
  let doy := doe - (365 * yoe + yoe / 4 - yoe / 100)
  let mp := (5 * doy + 2) / 153
  let d := doy - (153 * mp + 2) / 5 + 1
  let m := mp + (if mp < 10 then 3 else -9)
  (if m ≤ 2 then y + 1 else y, m, d)

/-- Number of days in month `m` of year `y` (Gregorian), used to validate
parsed dates the way `datetime.fromisoformat` does. -/
def daysInMonth (y m : Int) : Int :=
  if m = 2 then
    if y % 4 = 0 ∧ (y % 100 ≠ 0 ∨ y % 400 = 0) then 29 else 28
  else if m = 4 ∨ m = 6 ∨ m = 9 ∨ m = 11 then 30
  else 31

/-- Day-of-month (`time.day` in Python) of a UTC timestamp in epoch
seconds. -/
def dayOfMonth (t : Int) : Int :=
  (civilFromDays (t / 86400)).2.2

/-! ### Timestamp parsing

`datetime.fromisoformat(s).astimezone(timezone.utc)` for the timestamp
strings of this input format: `YYYY-MM-DDTHH:MM:SS` followed by an offset
designator `Z`, `+HH:MM` or `-HH:MM`.  The instant is the civil field
value minus the offset.  Naive strings (no offset) are not modelled: for
those the Python code's `astimezone` would consult the process-local
timezone, an environment dependence outside the valid input format (§6 of
the spec requires an offset), so the parser rejects them. -/

/-- Numeric value of a decimal digit character, `none` otherwise. -/
def digitVal (c : Char) : Option Nat :=
  if c.isDigit then some (c.toNat - '0'.toNat) else none

/-- Value of a two-digit decimal string given as two characters. -/
def twoDigits (a b : Char) : Option Nat := do
  let x ← digitVal a
  let y ← digitVal b
  pure (10 * x + y)

/-- Value of a four-digit decimal string given as four characters. -/
def fourDigits (a b c d : Char) : Option Nat := do
  let x ← twoDigits a b
  let y ← twoDigits c d
  pure (100 * x + y)

/-- Offset suffix of an ISO-8601 string, in seconds east of UTC. -/
def parseOffset : List Char → Option Int
  | ['Z'] => some 0
  | ['+', h1, h2, ':', m1, m2] => do
      let h ← twoDigits h1 h2
      let m ← twoDigits m1 m2
      if h ≤ 23 ∧ m ≤ 59 then pure ((h : Int) * 3600 + m * 60) else none
  | ['-', h1, h2, ':', m1, m2] => do
      let h ← twoDigits h1 h2
      let m ← twoDigits m1 m2
      if h ≤ 23 ∧ m ≤ 59 then pure (-((h : Int) * 3600 + m * 60)) else none
  | _ => none

/-- Epoch seconds (UTC) of an ISO-8601 timestamp string; `none` models the
`ValueError` raised by `datetime.fromisoformat` on an unparseable
string. -/
def fromisoformat (s : String) : Option Int :=
  match s.toList with
  | y1 :: y2 :: y3 :: y4 :: '-' :: mo1 :: mo2 :: '-' :: d1 :: d2 :: 'T' ::
    h1 :: h2 :: ':' :: mi1 :: mi2 :: ':' :: s1 :: s2 :: rest => do
      let y ← fourDigits y1 y2 y3 y4
      let mo ← twoDigits mo1 mo2
      let d ← twoDigits d1 d2
      let h ← twoDigits h1 h2
      let mi ← twoDigits mi1 mi2
      let se ← twoDigits s1 s2
      let off ← parseOffset rest
      if 1 ≤ mo ∧ mo ≤ 12 ∧ 1 ≤ (d : Int) ∧ (d : Int) ≤ daysInMonth y mo ∧
          h ≤ 23 ∧ mi ≤ 59 ∧ se ≤ 59 then
        pure (daysFromCivil y mo d * 86400 + h * 3600 + mi * 60 + se - off)
      else none
  | _ => none

/-! ### Error taxonomy

One constructor per distinct Python failure mode the script can hit:
`open` on a missing path, `json.load` on malformed bytes, iterating a
non-array document, a record whose field access / timestamp parse /
`int()` coercion raises, a column attribute access (`commits.built`) on
a frame that has no such column, and an out-of-bounds index access. -/

deriving instance DecidableEq for Except

/-- Errors of the script run. -/
inductive ScriptErr where
  | fileNotFound : ScriptErr
  | parseError : ScriptErr
  | typeError : ScriptErr
  | badRecord : ScriptErr
  | attributeError : ScriptErr
  | indexError : ScriptErr
deriving DecidableEq

/-! ### Commit aggregator (`rawCommits`, `commits`) -/

/-- Element of the `rawCommits` list: normalized UTC commit timestamp, the
constant `'built': 1`, and `int(i['published'])`. -/
structure CommitRec where
  date : Int
  built : Int
  published : Int
deriving DecidableEq

/-- Sequencing of a fallible per-record conversion over a list, the
semantics of a Python list comprehension whose body can raise: the result
is the converted list, unless some element raises, in which case the
first raise aborts the whole comprehension. -/
def mapME {a b : Type} (fm : a → Except ScriptErr b) : List a → Except ScriptErr (List b)
  | [] => .ok []
  | x :: t =>
    match fm x with
    | .error e => .error e
    | .ok y =>
      match mapME fm t with
      | .error e => .error e
      | .ok yt => .ok (y :: yt)

/-- Conversion of one JSON record into a `rawCommits` entry:
`datetime.fromisoformat(i['date']).astimezone(timezone.utc)` and
`int(i['published'])`; any missing field, non-string date, unparseable
timestamp or non-coercible flag raises and aborts the comprehension. -/
def parseCommit (j : Json) : Except ScriptErr CommitRec :=
  match j.getField "date" with
  | some (.str s) =>
    match fromisoformat s with
    | some t =>
      match j.getField "published" with
      | some pubJ =>
        match pubJ.toIntPy with
        | some p => .ok ⟨t, 1, p⟩
        | none => .error .badRecord
      | none => .error .badRecord
    | none => .error .badRecord
  | some _ => .error .badRecord
  | none => .error .badRecord

/-- The `rawCommits` list comprehension: one pass over the whole document,
failing the run on the first bad record (no record is dropped). -/
def rawCommits (xs : List Json) : Except ScriptErr (List CommitRec) :=
  mapME parseCommit xs

/-- Day number of the Sunday labelling the pandas `resample('W')` bin that
contains epoch-seconds timestamp `t`: the first Sunday on or after `t`'s
calendar date.  Day 0 (1970-01-01) was a Thursday, so Sundays are the day
numbers congruent to 3 mod 7. -/
def weekKeyDay (t : Int) : Int :=
  t / 86400 + (3 - t / 86400) % 7

/-- One row of the weekly series `commits.resample('W').sum()`: the
labelling Sunday (as a day number) and the summed columns. -/
structure WeekBucket where
  week : Int
  built : Int
  published : Int
deriving DecidableEq

/-- Column sums of the rows falling in the week labelled `k`. -/
def bucketFor (rs : List CommitRec) (k : Int) : WeekBucket :=
  let inWeek := rs.filter (fun c => weekKeyDay c.date == k)
  ⟨k, (inWeek.map (·.built)).sum, (inWeek.map (·.published)).sum⟩

/-- Fold-based minimum of `a :: l`, as `DatetimeIndex.min()`. -/
def listMin (a : Int) (l : List Int) : Int := l.foldl min a

/-- Fold-based maximum of `a :: l`, as `DatetimeIndex.max()`. -/
def listMax (a : Int) (l : List Int) : Int := l.foldl max a

/-- Earliest commit timestamp of a nonempty record list (0 for `[]`, a
value the resampler never consults). -/
def minDate : List CommitRec → Int
  | [] => 0
  | r :: rest => listMin r.date (rest.map (·.date))

/-- Latest commit timestamp of a nonempty record list (0 for `[]`). -/
def maxDate : List CommitRec → Int
  | [] => 0
  | r :: rest => listMax r.date (rest.map (·.date))

/-- The weekly series `commits = commits.resample('W').sum()`: one bucket
per calendar week from the week of the earliest row to the week of the
latest row, consecutive with a 7-day step, empty weeks summing to zero.
An empty frame resamples to an empty frame. -/
def resampleWeekly (rs : List CommitRec) : List WeekBucket :=
  match rs with
  | [] => []
  | r :: rest =>
    let lo := weekKeyDay (minDate (r :: rest))
    let hi := weekKeyDay (maxDate (r :: rest))
    let n := ((hi - lo) / 7 + 1).toNat
    (List.range n).map (fun (i : Nat) => bucketFor (r :: rest) (lo + 7 * (i : Int)))

/-! ### Duration aggregator (`roundedTime`, `rawTags`, `tags`, groupby) -/

/-- The script's `roundedTime`:
`(time - timedelta(days=time.day)).replace(hour=0, minute=0, second=0,
microsecond=0)` on epoch seconds — subtract the (1-based) day-of-month in
days, then truncate to midnight. -/
def roundedTime (t : Int) : Int :=
  (t / 86400 - dayOfMonth t) * 86400

/-- Row of the `tags` frame: the `roundedTime` group key and
`duration = publishDate - commitDate` in whole seconds (the
`total_seconds()` of the timedelta; all timestamps here are
whole-second). -/
structure TagRec where
  date : Int
  duration : Int
deriving DecidableEq

/-- Truthiness test of the `published` field, the comprehension filter
`if i['published']`.  A record with no `published` field would raise a
`KeyError` in Python, but the script only reaches `rawTags` after the
`rawCommits` comprehension has already required the field on every
record, so the missing-field case (here `false`) is unreachable in the
script flow. -/
def publishedTruthy (j : Json) : Bool :=
  match j.getField "published" with
  | some v => v.truthy
  | none => false

/-- Conversion of one published JSON record into its `tags` row: the
`rawTags` comprehension parses `date` and `publishedTime`, and the `tags`
frame keeps `roundedTime(date)` and the timestamp difference.  A missing
or unparseable `publishedTime` raises and aborts the run. -/
def parseTag (j : Json) : Except ScriptErr TagRec :=
  match j.getField "date" with
  | some (.str s) =>
    match fromisoformat s with
    | some t =>
      match j.getField "publishedTime" with
      | some (.str ps) =>
        match fromisoformat ps with
        | some pt => .ok ⟨roundedTime t, pt - t⟩
        | none => .error .badRecord
      | some _ => .error .badRecord
      | none => .error .badRecord
    | none => .error .badRecord
  | some _ => .error .badRecord
  | none => .error .badRecord

/-- The `rawTags`/`tags` construction: filter to truthy `published`
records and build the group key and duration for each. -/
def rawTags (xs : List Json) : Except ScriptErr (List TagRec) :=
  mapME parseTag (xs.filter publishedTruthy)

/-- The `tags.groupby(['date'])['duration']` loop: pandas iterates groups
in ascending key order, and the script sorts each group's durations
ascending (`sort_values`, a stable ascending sort, here insertion sort)
before appending.  Keys are deduplicated first occurrences then sorted;
each group holds the sorted durations of the rows carrying that key. -/
def monthlyGroups (ts : List TagRec) : List (Int × List Int) :=
  let keys := ((ts.map (·.date)).dedup).insertionSort (· ≤ ·)
  keys.map (fun k =>
    (k, (((ts.filter (fun r => r.date == k)).map
      (·.duration)).insertionSort (· ≤ ·))))

/-! ### Panel 2: publication rate -/

/-- Value of a float64 cell as the script can produce it by dividing two
integer series: NaN from `0/0`, signed infinities from `n/0`, a rational
otherwise.  (Pandas raises no error on division by zero; it produces
these IEEE values.) -/
inductive PyFloat where
  | nan : PyFloat
  | inf : PyFloat
  | ninf : PyFloat
  | val (q : ℚ) : PyFloat
deriving DecidableEq

/-- Elementwise float division of the two int-valued columns, as in
`commits.published.astype(float) / commits.built.astype(float)`. -/
def pyDivInt (a b : Int) : PyFloat :=
  if b = 0 then
    if a = 0 then .nan else if 0 < a then .inf else .ninf
  else .val ((a : ℚ) / (b : ℚ))

/-- The series `f = commits.published.astype(float) /
commits.built.astype(float)` over the weekly buckets. -/
def f (bs : List WeekBucket) : List PyFloat :=
  bs.map (fun b => pyDivInt b.published b.built)

/-! ### Panel 3: duration axis formatting -/

/-- Python `'\x7b:2.0f\x7d'.format(n)` for a whole number: decimal digits
right-aligned in a field of width at least 2, space-padded. -/
def pad2 (n : Int) : String :=
  let s := toString n
  if s.length < 2 then " " ++ s else s

/-- The script's `format_duration` tick formatter on whole seconds.
Python `divmod` is floor division and floor modulus, which for the
positive divisor 60 agree with `Int` `/` and `%`. -/
def format_duration (seconds : Int) : String :=
  if seconds < 60 then pad2 seconds ++ "s"
  else if seconds < 3600 then
    let minutes := seconds / 60
    let secs := seconds % 60
    pad2 minutes ++ "m" ++ pad2 secs ++ "s"
  else
    let minutes := seconds / 60
    let _secs := seconds % 60
    let hours := minutes / 60
    let mins := minutes % 60
    pad2 hours ++ "h" ++ pad2 mins ++ "m"

/-- Upper y-limit of the duration panel, `durationplot.set_ylim(0, 60 *
60 * 2.5)`, in seconds. -/
def durationYLim : ℚ := 60 * 60 * 2.5

/-! ### Script driver -/

/-- Observable content of a file for the loader: either bytes that
`json.load` rejects, or bytes whose parse is the given JSON document.
(The textual JSON grammar itself is Python-stdlib behavior, outside this
repository; only its outcome matters to the script.) -/
inductive FileContent where
  | invalid : FileContent
  | json (v : Json) : FileContent

/-- The `os.path.join(args.data_dir, args.data_file)` path for the
relative file names this tool takes. -/
def pathJoin (dir file : String) : String := dir ++ "/" ++ file

/-- Column attribute access on the weekly frame, `commits.built` or
`commits.published`.  The frame is built with
`data=[... for i in rawCommits]`, so when `rawCommits` is empty the
frame has no columns at all and the attribute access raises an
`AttributeError`; otherwise it yields the column over the resampled
rows. -/
def dataColumn (commits : List CommitRec) (weekly : List WeekBucket)
    (col : WeekBucket → Int) : Except ScriptErr (List Int) :=
  match commits with
  | [] => .error .attributeError
  | _ :: _ => .ok (weekly.map col)

/-- The script body, from `open`/`json.load` through the aggregation and
the renderer's data accesses, over an abstract file system `fs` and a
process clock reading `now`.  The script never reads the clock; `now` is
threaded only so that independence from it is expressible.  Float-valued
axis cosmetics (`set_ylim` bounds, colors) carry no aggregated data and
are not modelled; the renderer accesses kept are the ones that touch the
aggregates, in source order: the stackplot's column accesses
`commits.built` / `commits.published` (an `AttributeError` on the
column-less empty frame), then `commits.index[0]` /
`commits.index[-1]` for `set_xlim` (an `IndexError` on an empty index),
then the groupby loop.  The result is the weekly series, the x-limits,
and the monthly duration groups. -/
def script (now : Int) (fs : String → Option FileContent)
    (dataDir dataFile : String) :
    Except ScriptErr (List WeekBucket × (Int × Int) × List (Int × List Int)) := do
  let _ := now
  let doc ← match fs (pathJoin dataDir dataFile) with
    | none => Except.error .fileNotFound
    | some .invalid => Except.error .parseError
    | some (.json v) => Except.ok v
  let xs ← match doc with
    | .arr xs => Except.ok xs
    | _ => Except.error .typeError
  let commits ← rawCommits xs
  let weekly := resampleWeekly commits
  let _builtCol ← dataColumn commits weekly (·.built)
  let _publishedCol ← dataColumn commits weekly (·.published)
  let xlim ← match weekly.head?, weekly.getLast? with
    | some first, some last => Except.ok (first.week, last.week)
    | _, _ => Except.error .indexError
  let ts ← rawTags xs
  pure (weekly, xlim, monthlyGroups ts)

/-! ### Spec-side definition for the monthly key -/

/-- Modelled from the spec: the spec's monthly key, "the calendar month
bucket of its commit date, truncated to the first instant of that month
(UTC)" — stated for comparison against the script's `roundedTime`, which
the spec sentence describes. -/
def monthFirstInstant (t : Int) : Int :=
  let c := civilFromDays (t / 86400)
  daysFromCivil c.1 c.2.1 1 * 86400

/-! ### Statement-side reading helpers and concrete fixtures -/

/-- Validity of a `published` field per the input format: a JSON boolean
or a 0/1 number.  (Python's `int()` would also accept other numbers,
which are outside the valid input format.) -/
def validPublished : Json → Bool
  | .bool _ => true
  | .num n => n == 0 || n == 1
  | _ => false

/-- Parsed `date` timestamp of a record, read off for theorem statements
(0 when absent or unparseable; theorems use it only where parsing
succeeded). -/
def dateOf (j : Json) : Int :=
  match j.getField "date" with
  | some (.str s) => (fromisoformat s).getD 0
  | _ => 0

/-- Parsed `publishedTime` timestamp of a record, read off for theorem
statements (0 when absent or unparseable). -/
def ptOf (j : Json) : Int :=
  match j.getField "publishedTime" with
  | some (.str s) => (fromisoformat s).getD 0
  | _ => 0

/-- `int(i['published'])` of a record, read off for theorem statements
(0 when absent or non-coercible). -/
def pubIntOf (j : Json) : Int :=
  match j.getField "published" with
  | some v => v.toIntPy.getD 0
  | none => 0

/-- Scenario A of the spec: the single record
`{date: "2024-01-01T00:00:00Z", published: true,
publishedTime: "2024-01-01T00:10:00Z"}`. -/
def scenarioARecord : Json :=
  .obj [("date", .str "2024-01-01T00:00:00Z"),
        ("published", .bool true),
        ("publishedTime", .str "2024-01-01T00:10:00Z")]

/-- Record whose `publishedTime` precedes its commit `date` by 600
seconds (a clock anomaly). -/
def negDurationRecord : Json :=
  .obj [("date", .str "2024-01-01T00:10:00Z"),
        ("published", .bool true),
        ("publishedTime", .str "2024-01-01T00:00:00Z")]

/-- File system holding `data/summary.json` with the given document. -/
def fsWith (doc : FileContent) : String → Option FileContent :=
  fun p => if p = "data/summary.json" then some doc else none

/-- Two commit rows two calendar weeks apart (2024-01-01 and 2024-01-15):
their weekly resample has an all-zero middle bucket. -/
def gapWeekCommits : List CommitRec :=
  [⟨19723 * 86400, 1, 1⟩, ⟨19737 * 86400, 1, 0⟩]

/-- Value-level view of a successfully converted commit record, used in
theorem statements: `parseCommit j = .ok (commitOf j)` whenever the
conversion succeeds. -/
def commitOf (j : Json) : CommitRec := ⟨dateOf j, 1, pubIntOf j⟩

/-- Value-level view of a successfully converted published record:
`parseTag j = .ok (tagOf j)` whenever the conversion succeeds. -/
def tagOf (j : Json) : TagRec := ⟨roundedTime (dateOf j), ptOf j - dateOf j⟩

/-! ## Lemmas -/

theorem weekKeyDay_emod (t : Int) : weekKeyDay t % 7 = 3 := by
  unfold weekKeyDay
  omega

theorem weekKeyDay_mono {t1 t2 : Int} (h : t1 ≤ t2) :
    weekKeyDay t1 ≤ weekKeyDay t2 := by
  unfold weekKeyDay
  omega

theorem listMin_bounds (l : List Int) (a : Int) :
    listMin a l ≤ a ∧ ∀ x ∈ l, listMin a l ≤ x := by
  induction l generalizing a with
  | nil => simp [listMin]
  | cons b t ih =>
    have hmin : listMin a (b :: t) = listMin (min a b) t := rfl
    have h := ih (min a b)
    refine ⟨hmin ▸ le_trans h.1 (min_le_left a b), ?_⟩
    intro x hx
    rcases List.mem_cons.mp hx with rfl | hxt
    · exact hmin ▸ le_trans h.1 (min_le_right a x)
    · exact hmin ▸ h.2 x hxt

theorem listMax_bounds (l : List Int) (a : Int) :
    a ≤ listMax a l ∧ ∀ x ∈ l, x ≤ listMax a l := by
  induction l generalizing a with
  | nil => simp [listMax]
  | cons b t ih =>
    have hmax : listMax a (b :: t) = listMax (max a b) t := rfl
    have h := ih (max a b)
    refine ⟨hmax ▸ le_trans (le_max_left a b) h.1, ?_⟩
    intro x hx
    rcases List.mem_cons.mp hx with rfl | hxt
    · exact hmax ▸ le_trans (le_max_right a x) h.1
    · exact hmax ▸ h.2 x hxt

theorem minDate_le_maxDate {rs : List CommitRec} (h : rs ≠ []) :
    minDate rs ≤ maxDate rs := by
  cases rs with
  | nil => exact absurd rfl h
  | cons r rest =>
    simp only [minDate, maxDate]
    exact le_trans (listMin_bounds (rest.map (·.date)) r.date).1
      (listMax_bounds (rest.map (·.date)) r.date).1

theorem minDate_le_mem {rs : List CommitRec} {c : CommitRec} (hc : c ∈ rs) :
    minDate rs ≤ c.date := by
  cases rs with
  | nil => simp at hc
  | cons r rest =>
    simp only [minDate]
    rcases List.mem_cons.mp hc with rfl | hct
    · exact (listMin_bounds (rest.map (·.date)) c.date).1
    · exact (listMin_bounds (rest.map (·.date)) r.date).2 c.date
        (List.mem_map_of_mem (·.date) hct)

theorem mem_le_maxDate {rs : List CommitRec} {c : CommitRec} (hc : c ∈ rs) :
    c.date ≤ maxDate rs := by
  cases rs with
  | nil => simp at hc
  | cons r rest =>
    simp only [maxDate]
    rcases List.mem_cons.mp hc with rfl | hct
    · exact (listMax_bounds (rest.map (·.date)) c.date).1
    · exact (listMax_bounds (rest.map (·.date)) r.date).2 c.date
        (List.mem_map_of_mem (·.date) hct)

theorem mapME_ok_map_eq {α β : Type} (fm : α → Except ScriptErr β) (g : α → β)
    (l : List α) (bs : List β) (hok : mapME fm l = .ok bs)
    (hg : ∀ a ∈ l, ∀ b, fm a = .ok b → b = g a) : bs = l.map g := by
  induction l generalizing bs with
  | nil => simp [mapME] at hok; simp [← hok]
  | cons a t ih =>
    rw [mapME] at hok
    cases hfa : fm a with
    | error e => simp [hfa] at hok
    | ok b =>
      rw [hfa] at hok
      cases hts : mapME fm t with
      | error e => simp [hts] at hok
      | ok bt =>
        rw [hts] at hok
        simp only [Except.ok.injEq] at hok
        subst hok
        have hb := hg a (by simp) b hfa
        have hbt := ih bt hts (fun x hx => hg x (by simp [hx]))
        simp [hb, hbt]

theorem mapME_ok_length {α β : Type} (fm : α → Except ScriptErr β)
    (l : List α) (bs : List β) (hok : mapME fm l = .ok bs) :
    bs.length = l.length := by
  induction l generalizing bs with
  | nil => simp [mapME] at hok; simp [← hok]
  | cons a t ih =>
    rw [mapME] at hok
    cases hfa : fm a with
    | error e => simp [hfa] at hok
    | ok b =>
      rw [hfa] at hok
      cases hts : mapME fm t with
      | error e => simp [hts] at hok
      | ok bt =>
        rw [hts] at hok
        simp only [Except.ok.injEq] at hok
        subst hok
        simp [ih bt hts]

theorem mapME_ok_mem {α β : Type} (fm : α → Except ScriptErr β)
    (l : List α) (bs : List β) (hok : mapME fm l = .ok bs) :
    ∀ b ∈ bs, ∃ a ∈ l, fm a = .ok b := by
  induction l generalizing bs with
  | nil => simp [mapME] at hok; simp [hok]
  | cons a t ih =>
    rw [mapME] at hok
    cases hfa : fm a with
    | error e => simp [hfa] at hok
    | ok b =>
      rw [hfa] at hok
      cases hts : mapME fm t with
      | error e => simp [hts] at hok
      | ok bt =>
        rw [hts] at hok
        simp only [Except.ok.injEq] at hok
        subst hok
        intro x hx
        rcases List.mem_cons.mp hx with rfl | hxbt
        · exact ⟨a, by simp, hfa⟩
        · obtain ⟨a2, ha2, hfa2⟩ := ih bt hts x hxbt
          exact ⟨a2, by simp [ha2], hfa2⟩

theorem mapME_error_of_mem {α β : Type} (fm : α → Except ScriptErr β)
    (l : List α) (a : α) (ha : a ∈ l) (e : ScriptErr) (he : fm a = .error e) :
    ∃ e2, mapME fm l = .error e2 := by
  induction l with
  | nil => simp at ha
  | cons x t ih =>
    rw [mapME]
    rcases List.mem_cons.mp ha with rfl | hat
    · exact ⟨e, by simp [he]⟩
    · cases hfx : fm x with
      | error e2 => exact ⟨e2, by simp⟩
      | ok b =>
        obtain ⟨e2, h2⟩ := ih hat
        exact ⟨e2, by simp [h2]⟩

theorem parseCommit_ok_eq {j : Json} {c : CommitRec}
    (h : parseCommit j = .ok c) : c = commitOf j := by
  unfold parseCommit at h
  repeat split at h
  all_goals simp_all [commitOf, dateOf, pubIntOf]

theorem parseTag_ok_eq {j : Json} {r : TagRec}
    (h : parseTag j = .ok r) : r = tagOf j := by
  unfold parseTag at h
  repeat split at h
  all_goals simp_all [tagOf, dateOf, ptOf]

theorem validPublished_bounds {v : Json} (h : validPublished v = true) :
    0 ≤ v.toIntPy.getD 0 ∧ v.toIntPy.getD 0 ≤ 1 := by
  cases v with
  | bool b => cases b <;> simp [Json.toIntPy]
  | num n => simp [validPublished] at h; rcases h with rfl | rfl <;> simp [Json.toIntPy]
  | _ => simp [validPublished] at h

theorem sum_published_bounds (l : List CommitRec)
    (h : ∀ c ∈ l, c.built = 1 ∧ 0 ≤ c.published ∧ c.published ≤ 1) :
    0 ≤ (l.map (·.published)).sum ∧
      (l.map (·.published)).sum ≤ (l.map (·.built)).sum := by
  induction l with
  | nil => simp
  | cons c t ih =>
    have hc := h c (by simp)
    have ht := ih (fun x hx => h x (by simp [hx]))
    simp only [List.map_cons, List.sum_cons]
    omega

theorem mem_resampleWeekly {rs : List CommitRec} {b : WeekBucket}
    (hb : b ∈ resampleWeekly rs) : ∃ k, b = bucketFor rs k := by
  unfold resampleWeekly at hb
  cases rs with
  | nil => simp at hb
  | cons r rest =>
    simp only [List.mem_map, List.mem_range] at hb
    obtain ⟨i, _, hbe⟩ := hb
    exact ⟨_, hbe.symm⟩

theorem rawTags_ok_eq {xs : List Json} {ts : List TagRec}
    (hok : rawTags xs = .ok ts) :
    ts = (xs.filter publishedTruthy).map tagOf :=
  mapME_ok_map_eq parseTag tagOf _ ts hok
    (fun _ _ _ hb => parseTag_ok_eq hb)

theorem rawCommits_ok_eq {xs : List Json} {cs : List CommitRec}
    (hok : rawCommits xs = .ok cs) : cs = xs.map commitOf :=
  mapME_ok_map_eq parseCommit commitOf _ cs hok
    (fun _ _ _ hb => parseCommit_ok_eq hb)

/-! ## Claims -/

/-- C1: REFUTED on the code.  For the Scenario A record (commit date
2024-01-01T00:00:00Z, published at 00:10:00Z) the pipeline produces
exactly one monthly duration group containing the single duration 600
seconds, but the group key `roundedTime` yields epoch 1703980800 =
2023-12-31T00:00:00Z — the midnight of the last day of the *previous*
month — not the first instant 1704067200 = 2024-01-01T00:00:00Z of the
calendar month containing the commit date (`roundedTime` subtracts
`time.day` days instead of `time.day - 1`). -/
theorem monthly_group_key_previous_month :
    rawTags [scenarioARecord] = .ok [⟨1703980800, 600⟩] ∧
    monthlyGroups [⟨1703980800, 600⟩] = [(1703980800, [600])] ∧
    roundedTime (dateOf scenarioARecord) = 1703980800 ∧
    civilFromDays (1703980800 / 86400) = (2023, 12, 31) ∧
    monthFirstInstant (dateOf scenarioARecord) = 1704067200 ∧
    civilFromDays (1704067200 / 86400) = (2024, 1, 1) := by
  decide

/-- C5 counterexample: for the input whose single record has
`publishedTime` 600 seconds *before* its commit date, the run completes
normally — no error of any class is reported — and the negative duration
-600 is included in the monthly group, so the claim that the run flags a
negative duration as a reportable data error is false on the code. -/
theorem negative_duration_silently_accepted :
    script 0 (fsWith (.json (.arr [negDurationRecord]))) "data" "summary.json" =
      .ok ([⟨19729, 1, 1⟩], (19729, 19729), [(1703980800, [-600])]) := by
  decide

/-- C7: the duration-axis tick formatter renders `s < 60` as seconds with
an `s` suffix, `60 ≤ s < 3600` as whole minutes and remaining seconds,
and `s ≥ 3600` as whole hours and remaining minutes (each number
space-padded to width 2, Python `'\x7b:2.0f\x7d'`); and the duration
panel's y-axis ceiling `60 * 60 * 2.5` equals 9000 seconds. -/
theorem format_duration_branches :
    (∀ s : Int, s < 60 → format_duration s = pad2 s ++ "s") ∧
    (∀ s : Int, 60 ≤ s → s < 3600 →
      format_duration s = pad2 (s / 60) ++ "m" ++ pad2 (s % 60) ++ "s") ∧
    (∀ s : Int, 3600 ≤ s →
      format_duration s = pad2 (s / 3600) ++ "h" ++ pad2 ((s % 3600) / 60) ++ "m") ∧
    durationYLim = 9000 := by
  refine ⟨?_, ?_, ?_, ?_⟩
  · intro s h
    simp [format_duration, h]
  · intro s h1 h2
    have h0 : ¬ s < 60 := by omega
    simp [format_duration, h0, h2]
  · intro s h
    have h1 : ¬ s < 60 := by omega
    have h2 : ¬ s < 3600 := by omega
    have e1 : s / 60 / 60 = s / 3600 := by omega
    have e2 : s / 60 % 60 = s % 3600 / 60 := by omega
    simp [format_duration, h1, h2, e1, e2]
  · norm_num [durationYLim]

/-- Witness for C7: the three branches evaluated at 45, 600 and 9000
seconds. -/
theorem format_duration_branches_witness :
    format_duration 45 = pad2 45 ++ "s" ∧
    format_duration 600 = pad2 (600 / 60) ++ "m" ++ pad2 (600 % 60) ++ "s" ∧
    format_duration 9000 = pad2 (9000 / 3600) ++ "h" ++ pad2 ((9000 % 3600) / 60) ++ "m" :=
  ⟨format_duration_branches.1 45 (by decide),
   format_duration_branches.2.1 600 (by decide) (by decide),
   format_duration_branches.2.2.1 9000 (by decide)⟩

/-- C8: the whole run is a pure function of the file system and the CLI
arguments; the process clock `now` (the only other ambient input) is
never read, so two runs over the same input — including reloading the
same file and recomputing — produce identical weekly bucket sequences,
x-limits and monthly duration groups. -/
theorem pipeline_run_deterministic :
    ∀ (now1 now2 : Int) (fs : String → Option FileContent) (dir file : String),
      script now1 fs dir file = script now2 fs dir file := by
  intro now1 now2 fs dir file
  rfl

/-- C9 counterexample: on the empty input array the run does fail, but
not through the mechanism the claim names: the stackplot's column
attribute access `commits.built` (line 41) on the column-less empty
frame raises first, so the script's error is the AttributeError class
and not the IndexError class of `commits.index[0]` (line 46), which is
never evaluated. -/
theorem empty_input_fails_before_index_access :
    script 0 (fsWith (.json (.arr []))) "data" "summary.json" =
      .error .attributeError ∧
    ScriptErr.attributeError ≠ ScriptErr.indexError := by
  decide

/-- C9 (amended): the empty input array yields no well-defined "no data"
result: the aggregation succeeds with an empty, column-less weekly
frame, the renderer's first column access (`commits.built` in the
stackplot call) fails with the AttributeError class, and the run ends in
the error branch before reaching `commits.index[0]` — an access that
would itself be out of bounds, the empty index having no element 0. -/
theorem empty_input_reaches_error_branch :
    rawCommits [] = .ok [] ∧
    resampleWeekly [] = [] ∧
    dataColumn [] (resampleWeekly []) (·.built) = .error .attributeError ∧
    (resampleWeekly ([] : List CommitRec)).head? = none ∧
    script 0 (fsWith (.json (.arr []))) "data" "summary.json" =
      .error .attributeError := by
  decide

/-- C2: for every valid input array (each record's `published` field a
boolean or 0/1 number) whose conversion succeeds, every weekly bucket of
the resampled series satisfies `0 ≤ published ≤ built`: each row
contributes `built = 1` and `published ∈ {0, 1}`, and buckets are column
sums over the rows of the week. -/
theorem weekly_bucket_published_le_built (xs : List Json) (cs : List CommitRec)
    (hv : ∀ j ∈ xs, (j.getField "published").any validPublished = true)
    (hok : rawCommits xs = .ok cs) :
    ∀ b ∈ resampleWeekly cs, 0 ≤ b.published ∧ b.published ≤ b.built := by
  have hcs : ∀ c ∈ cs, c.built = 1 ∧ 0 ≤ c.published ∧ c.published ≤ 1 := by
    intro c hc
    obtain ⟨j, hj, hpj⟩ := mapME_ok_mem parseCommit xs cs hok c hc
    have he := parseCommit_ok_eq hpj
    subst he
    refine ⟨rfl, ?_⟩
    have hvj := hv j hj
    cases hgf : j.getField "published" with
    | none => rw [hgf] at hvj; simp [Option.any] at hvj
    | some v =>
      rw [hgf] at hvj
      simp only [Option.any] at hvj
      have hb := validPublished_bounds hvj
      simpa [commitOf, pubIntOf, hgf] using hb
  intro b hb
  obtain ⟨k, rfl⟩ := mem_resampleWeekly hb
  have hf : ∀ c ∈ cs.filter (fun c => weekKeyDay c.date == k),
      c.built = 1 ∧ 0 ≤ c.published ∧ c.published ≤ 1 :=
    fun c hc => hcs c (List.mem_filter.mp hc).1
  have hs := sum_published_bounds _ hf
  exact ⟨by simpa [bucketFor] using hs.1, by simpa [bucketFor] using hs.2⟩

/-- Witness for C2: the Scenario A input, whose single weekly bucket is
`{week 19729, built 1, published 1}`. -/
theorem weekly_bucket_published_le_built_witness :
    ((scenarioARecord.getField "published").any validPublished = true) ∧
    rawCommits [scenarioARecord] = .ok [⟨1704067200, 1, 1⟩] ∧
    0 ≤ (WeekBucket.mk 19729 1 1).published ∧
    (WeekBucket.mk 19729 1 1).published ≤ (WeekBucket.mk 19729 1 1).built :=
  ⟨by decide, by decide,
   (weekly_bucket_published_le_built [scenarioARecord] [⟨1704067200, 1, 1⟩]
      (by decide) (by decide) ⟨19729, 1, 1⟩ (by decide)).1,
   (weekly_bucket_published_le_built [scenarioARecord] [⟨1704067200, 1, 1⟩]
      (by decide) (by decide) ⟨19729, 1, 1⟩ (by decide)).2⟩

theorem sum_built_eq_length (l : List CommitRec)
    (h : ∀ c ∈ l, c.built = 1) : (l.map (·.built)).sum = l.length := by
  induction l with
  | nil => simp
  | cons c t ih =>
    have hc := h c (by simp)
    have ht := ih (fun x hx => h x (by simp [hx]))
    simp only [List.map_cons, List.sum_cons, List.length_cons]
    omega

/-- C4: for every input whose duration aggregation succeeds, the duration
assigned to each published record is exactly its parsed `publishedTime`
minus its parsed commit `date` in seconds, and every monthly group's
duration list is sorted ascending. -/
theorem duration_assignment_and_sorted (xs : List Json) (ts : List TagRec)
    (hok : rawTags xs = .ok ts) :
    ts.map (·.duration) =
      (xs.filter publishedTruthy).map (fun j => ptOf j - dateOf j) ∧
    ∀ g ∈ monthlyGroups ts, List.Sorted (· ≤ ·) g.2 := by
  refine ⟨?_, ?_⟩
  · rw [rawTags_ok_eq hok]
    simp [List.map_map, tagOf, Function.comp]
  · intro g hg
    unfold monthlyGroups at hg
    simp only [List.mem_map] at hg
    obtain ⟨k, _, rfl⟩ := hg
    exact List.sorted_insertionSort (· ≤ ·) _

/-- Witness for C4: Scenario A, whose single monthly group is
`(1703980800, [600])`. -/
theorem duration_assignment_and_sorted_witness :
    rawTags [scenarioARecord] = .ok [⟨1703980800, 600⟩] ∧
    ([(⟨1703980800, 600⟩ : TagRec)].map (·.duration) =
      ([scenarioARecord].filter publishedTruthy).map
        (fun j => ptOf j - dateOf j)) ∧
    List.Sorted (· ≤ ·) ((1703980800, [600]) : Int × List Int).2 :=
  ⟨by decide,
   (duration_assignment_and_sorted [scenarioARecord] [⟨1703980800, 600⟩]
      (by decide)).1,
   (duration_assignment_and_sorted [scenarioARecord] [⟨1703980800, 600⟩]
      (by decide)).2 (1703980800, [600]) (by decide)⟩

/-- C5 (amended): a published record whose `publishedTime` precedes its
commit date yields a negative duration that is silently included in its
month's duration group — the aggregation neither fails nor reports
anything for it. -/
theorem negative_duration_included (xs : List Json) (ts : List TagRec)
    (hok : rawTags xs = .ok ts) (j : Json) (hj : j ∈ xs)
    (hp : publishedTruthy j = true) (hneg : ptOf j < dateOf j) :
    ∃ ds, (roundedTime (dateOf j), ds) ∈ monthlyGroups ts ∧
      ptOf j - dateOf j ∈ ds ∧ ptOf j - dateOf j < 0 := by
  have hts := rawTags_ok_eq hok
  have hjf : j ∈ xs.filter publishedTruthy := List.mem_filter.mpr ⟨hj, hp⟩
  have htag : tagOf j ∈ ts := by
    rw [hts]; exact List.mem_map_of_mem tagOf hjf
  have hkey : (tagOf j).date ∈ ((ts.map (·.date)).dedup).insertionSort (· ≤ ·) := by
    rw [(List.perm_insertionSort (· ≤ ·) _).mem_iff]
    exact List.mem_dedup.mpr (List.mem_map_of_mem (·.date) htag)
  refine ⟨((ts.filter (fun r => r.date == (tagOf j).date)).map
      (·.duration)).insertionSort (· ≤ ·), ?_, ?_, by omega⟩
  · unfold monthlyGroups
    exact List.mem_map_of_mem
      (fun k => (k, ((ts.filter (fun r => r.date == k)).map
        (·.duration)).insertionSort (· ≤ ·))) hkey
  · rw [(List.perm_insertionSort (· ≤ ·) _).mem_iff]
    have hjin : tagOf j ∈ ts.filter (fun r => r.date == (tagOf j).date) :=
      List.mem_filter.mpr ⟨htag, by simp⟩
    exact List.mem_map_of_mem (·.duration) hjin

/-- Witness for C5's amended statement: the negative-duration record,
whose duration -600 lands in the group keyed 1703980800. -/
theorem negative_duration_included_witness :
    publishedTruthy negDurationRecord = true ∧
    ∃ ds, (roundedTime (dateOf negDurationRecord), ds) ∈
        monthlyGroups [⟨1703980800, -600⟩] ∧
      ptOf negDurationRecord - dateOf negDurationRecord ∈ ds ∧
      ptOf negDurationRecord - dateOf negDurationRecord < 0 :=
  ⟨by decide,
   negative_duration_included [negDurationRecord] [⟨1703980800, -600⟩]
     (by decide) negDurationRecord (List.mem_singleton.mpr rfl)
     (by decide) (by decide)⟩

/-- C6: the loader errors with the file-not-found class when the joined
path resolves to no file, with the parse-error class when the file's
bytes are not well-formed JSON; and one bad record (missing field,
non-string or unparseable timestamp, non-coercible flag) aborts the whole
record conversion, while a successful conversion keeps every record (no
silent dropping). -/
theorem loader_error_classification :
    (∀ (now : Int) (fs : String → Option FileContent) (dir file : String),
      fs (pathJoin dir file) = none →
        script now fs dir file = .error .fileNotFound) ∧
    (∀ (now : Int) (fs : String → Option FileContent) (dir file : String),
      fs (pathJoin dir file) = some .invalid →
        script now fs dir file = .error .parseError) ∧
    (∀ (xs : List Json) (j : Json) (e : ScriptErr), j ∈ xs →
      parseCommit j = .error e → ∃ e2, rawCommits xs = .error e2) ∧
    (∀ (xs : List Json) (cs : List CommitRec),
      rawCommits xs = .ok cs → cs.length = xs.length) := by
  refine ⟨?_, ?_, ?_, ?_⟩
  · intro now fs dir file h
    simp [script, h, Bind.bind, Except.bind]
  · intro now fs dir file h
    simp [script, h, Bind.bind, Except.bind]
  · intro xs j e hj he
    exact mapME_error_of_mem parseCommit xs j hj e he
  · intro xs cs hok
    exact mapME_ok_length parseCommit xs cs hok

/-- Witness for C6: a missing file, a malformed file, a non-object record
aborting the conversion, and the empty conversion keeping its length. -/
theorem loader_error_classification_witness :
    script 0 (fun _ => none) "data" "summary.json" = .error .fileNotFound ∧
    script 0 (fsWith .invalid) "data" "summary.json" = .error .parseError ∧
    (∃ e2, rawCommits [Json.null] = .error e2) ∧
    ([] : List CommitRec).length = ([] : List Json).length :=
  ⟨loader_error_classification.1 0 (fun _ => none) "data" "summary.json" rfl,
   loader_error_classification.2.1 0 (fsWith .invalid) "data" "summary.json"
     (by simp [fsWith, pathJoin]),
   loader_error_classification.2.2.1 [Json.null] Json.null .badRecord
     (List.mem_singleton.mpr rfl) rfl,
   loader_error_classification.2.2.2 [] [] rfl⟩

/-- C10: the panel-2 rate series divides `published` by `built` with no
guard; at a bucket with `built > 0` the quotient is the finite rational
`published/built`, but at a zero-filled bucket (a week with no commits)
it is the IEEE 0/0 result NaN — a value distinct from every finite
percentage, in particular from 0 and 100 — and no error is raised. -/
theorem publication_rate_division (rs : List CommitRec)
    (hb1 : ∀ c ∈ rs, c.built = 1) (i : Nat) (b : WeekBucket)
    (hib : (resampleWeekly rs)[i]? = some b) :
    (f (resampleWeekly rs))[i]? = some (pyDivInt b.published b.built) ∧
    (b.built = 0 → pyDivInt b.published b.built = .nan) ∧
    (0 < b.built →
      pyDivInt b.published b.built = .val ((b.published : ℚ) / (b.built : ℚ))) ∧
    PyFloat.nan ≠ .val 0 ∧ PyFloat.nan ≠ .val 100 := by
  have hmem : b ∈ resampleWeekly rs := List.getElem?_mem hib
  obtain ⟨k, rfl⟩ := mem_resampleWeekly hmem
  refine ⟨?_, ?_, ?_, by simp, by simp⟩
  · rw [f, List.getElem?_map, hib]
    rfl
  · intro h0
    have hf1 : ∀ c ∈ rs.filter (fun c => weekKeyDay c.date == k), c.built = 1 :=
      fun c hc => hb1 c (List.mem_filter.mp hc).1
    have hlen : (rs.filter (fun c => weekKeyDay c.date == k)).length = 0 := by
      have hs := sum_built_eq_length _ hf1
      simp only [bucketFor] at h0
      omega
    have hnil := List.length_eq_zero.mp hlen
    have hpub : (bucketFor rs k).published = 0 := by
      simp [bucketFor, hnil]
    rw [hpub, h0]
    rfl
  · intro hpos
    have : (bucketFor rs k).built ≠ 0 := by omega
    simp [pyDivInt, this]

/-- Witness for C10: the two-commit input with an empty middle week; its
middle bucket is `{week 19736, built 0, published 0}` and the rate there
is NaN. -/
theorem publication_rate_division_witness :
    (resampleWeekly gapWeekCommits)[1]? = some ⟨19736, 0, 0⟩ ∧
    (f (resampleWeekly gapWeekCommits))[1]? =
      some (pyDivInt (WeekBucket.mk 19736 0 0).published
        (WeekBucket.mk 19736 0 0).built) ∧
    pyDivInt (WeekBucket.mk 19736 0 0).published
      (WeekBucket.mk 19736 0 0).built = .nan :=
  ⟨by decide,
   (publication_rate_division gapWeekCommits (by decide) 1 ⟨19736, 0, 0⟩
     (by decide)).1,
   (publication_rate_division gapWeekCommits (by decide) 1 ⟨19736, 0, 0⟩
     (by decide)).2.1 rfl⟩

theorem bucketFor_week (rs : List CommitRec) (k : Int) :
    (bucketFor rs k).week = k := rfl

theorem bucketFor_empty (rs : List CommitRec) (k : Int)
    (h : ∀ c ∈ rs, weekKeyDay c.date ≠ k) :
    (bucketFor rs k).built = 0 ∧ (bucketFor rs k).published = 0 := by
  have hnil : rs.filter (fun c => weekKeyDay c.date == k) = [] := by
    rw [List.filter_eq_nil_iff]
    intro c hc
    simp [h c hc]
  simp [bucketFor, hnil]

theorem resampleWeekly_cons (r : CommitRec) (rest : List CommitRec) :
    resampleWeekly (r :: rest) =
      (List.range (((weekKeyDay (maxDate (r :: rest)) -
          weekKeyDay (minDate (r :: rest))) / 7 + 1).toNat)).map
        (fun (i : Nat) => bucketFor (r :: rest)
          (weekKeyDay (minDate (r :: rest)) + 7 * (i : Int))) := rfl

/-- C3: for every nonempty record list, the weekly bucket sequence is
chronological and consecutive with a fixed 7-day step — bucket `i` is the
week `weekKeyDay (minDate rs) + 7 i` — starting at the week of the
earliest commit date and ending at the week of the latest commit date
inclusive, and every bucket whose week contains no commit carries
`built = 0` and `published = 0`. -/
theorem weekly_sequence_consecutive (rs : List CommitRec) (hne : rs ≠ []) :
    (resampleWeekly rs).length =
      ((weekKeyDay (maxDate rs) - weekKeyDay (minDate rs)) / 7 + 1).toNat ∧
    (∀ (i : Nat) (hi : i < (resampleWeekly rs).length),
      ((resampleWeekly rs).get ⟨i, hi⟩).week =
        weekKeyDay (minDate rs) + 7 * i) ∧
    (resampleWeekly rs).head?.map (·.week) =
      some (weekKeyDay (minDate rs)) ∧
    (resampleWeekly rs).getLast?.map (·.week) =
      some (weekKeyDay (maxDate rs)) ∧
    (∀ (i : Nat) (hi : i < (resampleWeekly rs).length),
      (∀ c ∈ rs, weekKeyDay c.date ≠ ((resampleWeekly rs).get ⟨i, hi⟩).week) →
      ((resampleWeekly rs).get ⟨i, hi⟩).built = 0 ∧
        ((resampleWeekly rs).get ⟨i, hi⟩).published = 0) := by
  cases rs with
  | nil => exact absurd rfl hne
  | cons r rest =>
    have hLH : weekKeyDay (minDate (r :: rest)) ≤
        weekKeyDay (maxDate (r :: rest)) :=
      weekKeyDay_mono (minDate_le_maxDate (by simp))
    have hL3 := weekKeyDay_emod (minDate (r :: rest))
    have hH3 := weekKeyDay_emod (maxDate (r :: rest))
    set L := weekKeyDay (minDate (r :: rest)) with hLdef
    set H := weekKeyDay (maxDate (r :: rest)) with hHdef
    have hlen : (resampleWeekly (r :: rest)).length = ((H - L) / 7 + 1).toNat := by
      rw [resampleWeekly_cons]
      simp
    have hget : ∀ (i : Nat) (hi : i < (resampleWeekly (r :: rest)).length),
        ((resampleWeekly (r :: rest)).get ⟨i, hi⟩) =
          bucketFor (r :: rest) (L + 7 * i) := by
      intro i hi
      have hi' : i < ((H - L) / 7 + 1).toNat := by rw [← hlen]; exact hi
      simp only [List.get_eq_getElem, resampleWeekly_cons, List.getElem_map,
        List.getElem_range]
    have hpos : 0 < (resampleWeekly (r :: rest)).length := by
      rw [hlen]; omega
    refine ⟨hlen, ?_, ?_, ?_, ?_⟩
    · intro i hi
      rw [hget i hi, bucketFor_week]
    · rw [List.head?_eq_getElem?, List.getElem?_eq_getElem hpos]
      have h0 := hget 0 hpos
      simp only [List.get_eq_getElem] at h0
      rw [h0]
      simp [bucketFor_week]
    · have hlast : (resampleWeekly (r :: rest)).length - 1 <
          (resampleWeekly (r :: rest)).length := by omega
      rw [List.getLast?_eq_getElem?, List.getElem?_eq_getElem hlast]
      have hl := hget _ hlast
      simp only [List.get_eq_getElem] at hl
      rw [hl]
      simp only [Option.map_some', bucketFor_week, Option.some.injEq]
      rw [hlen]
      omega
    · intro i hi hnone
      rw [hget i hi] at hnone ⊢
      exact bucketFor_empty _ _ (by simpa [bucketFor_week] using hnone)

/-- Witness for C3: the two-commit input spanning three weeks. -/
theorem weekly_sequence_consecutive_witness :
    (resampleWeekly gapWeekCommits).length =
      ((weekKeyDay (maxDate gapWeekCommits) -
        weekKeyDay (minDate gapWeekCommits)) / 7 + 1).toNat ∧
    (resampleWeekly gapWeekCommits).head?.map (·.week) =
      some (weekKeyDay (minDate gapWeekCommits)) ∧
    (resampleWeekly gapWeekCommits).getLast?.map (·.week) =
      some (weekKeyDay (maxDate gapWeekCommits)) :=
  ⟨(weekly_sequence_consecutive gapWeekCommits (by decide)).1,
   (weekly_sequence_consecutive gapWeekCommits (by decide)).2.2.1,
   (weekly_sequence_consecutive gapWeekCommits (by decide)).2.2.2.1⟩
